import Mathlib

/-!
# Verification of the NextDNS blocklist synchronizer

Shallow embedding of `src/nextdns_blocklist_manager.py`: the blocklist
line parser (`get_remote_blocklist_domains`), the debug-limit truncation,
the set difference of desired/current domain sets, the one-by-one
add/remove submission loops, and the overall run of `__main__` as a
state machine over an abstract world of fetch results and per-request
HTTP responses.
-/

namespace NextDNS

/-- Whitespace as Python's `str.strip`/`str.split` treat it (ASCII part):
space, tab, newline, carriage return, vertical tab, form feed. -/
def pyIsSpace (c : Char) : Bool :=
  c = ' ' || c = '\t' || c = '\n' || c = '\r' || c = '\x0b' || c = '\x0c'

/-- Python `s.strip()`: drop leading and trailing whitespace. -/
def pyStrip (s : String) : String :=
  String.mk (((s.data.dropWhile pyIsSpace).reverse.dropWhile pyIsSpace).reverse)

/-- Python `s.split("#")[0]`: everything before the first `#`
(the whole string when there is none). -/
def beforeHash (s : String) : String :=
  String.mk (s.data.takeWhile (fun c => c ≠ '#'))

/-- Split a character list at whitespace, keeping the (possibly empty)
groups between whitespace characters. -/
def splitWS : List Char → List (List Char)
  | [] => [[]]
  | c :: cs =>
      let r := splitWS cs
      if pyIsSpace c then [] :: r
      else
        match r with
        | [] => [[c]]
        | t :: ts => (c :: t) :: ts

/-- Python `s.split()` with no argument: whitespace-separated tokens,
empty pieces dropped. -/
def pySplit (s : String) : List String :=
  ((splitWS s.data).filter (fun t => !t.isEmpty)).map String.mk

/-- The per-line normalization `line.strip().split("#")[0].strip()`. -/
def stripCore (line : String) : String :=
  pyStrip (beforeHash (pyStrip line))

/-- The body of the parsing loop of `get_remote_blocklist_domains` for one
line of a fetched blocklist: strip and de-comment; skip what is left when
empty; otherwise the candidate is the last whitespace token (`parts[-1]`),
accepted unless it is a null-route sentinel address. -/
def parseLine (line : String) : Option String :=
  let core := stripCore line
  if core = "" then none
  else
    match (pySplit core).getLast? with
    | none => none
    | some domain =>
        if domain = "0.0.0.0" ∨ domain = "127.0.0.1" then none
        else some domain

/-- Accumulate the accepted candidates of one source's lines into the
running set (`domains.add(domain)` inside the per-url loop). -/
def parseSourceInto (acc : Finset String) (lines : List String) : Finset String :=
  lines.foldl (fun a line =>
    match parseLine line with
    | some d => insert d a
    | none => a) acc

/-- `get_remote_blocklist_domains`: the union over all successfully fetched
sources (a source that fails to fetch contributes nothing and is simply not
in the list) of the accepted candidates of their lines. -/
def desiredUnion (sources : List (List String)) : Finset String :=
  sources.foldl parseSourceInto ∅

/-- The shipped debugging configuration at the top of the script. -/
def DEBUG_DOMAIN_LIMIT : Nat := 20

/-- The debug block of `__main__`: when the parsed set exceeds the limit,
sort it and keep the first `DEBUG_DOMAIN_LIMIT` entries
(`set(sorted(list(all_desired_domains))[:DEBUG_DOMAIN_LIMIT])`). -/
def debugLimit (s : Finset String) : Finset String :=
  if DEBUG_DOMAIN_LIMIT < s.card then
    ((s.sort (· ≤ ·)).take DEBUG_DOMAIN_LIMIT).toFinset
  else s

/-- The `desired_domains` that reach the reconciliation in `__main__`. -/
def desiredBaseline (sources : List (List String)) : Finset String :=
  debugLimit (desiredUnion sources)

/-- Lines 130-131 of the script:
`domains_to_add = desired_domains - current_domains` and
`domains_to_remove = current_domains - desired_domains`. -/
def diffSets (desired current : Finset String) : Finset String × Finset String :=
  (desired \ current, current \ desired)

/-- Result of one HTTP request: a status code, or a transport error
(`requests.exceptions.RequestException`). -/
inductive HttpResult where
  | ok (status : Nat)
  | err
deriving DecidableEq, Repr

/-- `response.raise_for_status()` raises exactly for client and server
error codes (400-599). -/
def raisesForStatus (status : Nat) : Bool :=
  400 ≤ status && status < 600

/-- What one submission's iteration of the add/remove loop records. -/
inductive Outcome where
  | succeeded
  | skipped
  | failed
deriving DecidableEq, Repr

/-- One iteration of `add_domains_one_by_one`: a 409 Conflict is skipped as
already existing; then `raise_for_status` turns 400-599 into a caught,
logged failure; any other status is a success. A transport error is also
caught and logged as a failure. -/
def addOutcome : HttpResult → Outcome
  | .err => .failed
  | .ok s =>
      if s = 409 then .skipped
      else if raisesForStatus s then .failed
      else .succeeded

/-- One iteration of `remove_domains_one_by_one`: as for add, with 404 Not
Found skipped as already absent. -/
def removeOutcome : HttpResult → Outcome
  | .err => .failed
  | .ok s =>
      if s = 404 then .skipped
      else if raisesForStatus s then .failed
      else .succeeded

/-- `add_domains_one_by_one`: every domain of the list gets its own POST and
its own recorded outcome; the loop body catches all request errors, so no
iteration can stop the later ones. -/
def addDomainsOneByOne (resp : String → HttpResult) (ds : List String) :
    List (String × Outcome) :=
  ds.map (fun d => (d, addOutcome (resp d)))

/-- `remove_domains_one_by_one`, analogously with DELETE requests. -/
def removeDomainsOneByOne (resp : String → HttpResult) (ds : List String) :
    List (String × Outcome) :=
  ds.map (fun d => (d, removeOutcome (resp d)))

/-- The network requests a run issues against the NextDNS API. -/
inductive Request where
  | readReq
  | addReq (d : String)
  | removeReq (d : String)
deriving DecidableEq, Repr

/-- A request that mutates the remote denylist (POST or DELETE). -/
def Request.isMutation : Request → Bool
  | .readReq => false
  | .addReq _ => true
  | .removeReq _ => true

/-- Terminal states of `__main__`. -/
inductive RunResult where
  | abortedEmpty
  | abortedReadFailure
  | upToDate
  | completed (addResults removeResults : List (String × Outcome))
deriving DecidableEq, Repr

/-- Process exit code of each terminal state: both aborts call `exit(1)`,
the two successful ends fall off the script with exit code 0. -/
def exitCode : RunResult → Nat
  | .abortedEmpty => 1
  | .abortedReadFailure => 1
  | .upToDate => 0
  | .completed _ _ => 0

/-- The run's environment: the lines of each successfully fetched source,
the current-denylist fetch result (`none` = request exception), and the
response each add/remove submission would receive. -/
structure World where
  sources : List (List String)
  current : Option (Finset String)
  addResp : String → HttpResult
  removeResp : String → HttpResult

/-- `__main__` after configuration checks: build the desired set, apply the
debug limit, abort (exit 1, no request at all) when it is empty, fetch the
current denylist (abort with exit 1 on failure), diff, stop silently when
there is nothing to do, otherwise submit every add then every remove.
Set iteration order is modelled by the sorted enumeration. -/
def runSync (w : World) : RunResult × List Request :=
  let desired := desiredBaseline w.sources
  if desired = ∅ then (.abortedEmpty, [])
  else
    match w.current with
    | none => (.abortedReadFailure, [.readReq])
    | some current =>
        let delta := diffSets desired current
        if delta.1 = ∅ ∧ delta.2 = ∅ then (.upToDate, [.readReq])
        else
          let addList := delta.1.sort (· ≤ ·)
          let removeList := delta.2.sort (· ≤ ·)
          (.completed (addDomainsOneByOne w.addResp addList)
                      (removeDomainsOneByOne w.removeResp removeList),
           .readReq :: (addList.map Request.addReq ++
                        removeList.map Request.removeReq))

/-! ## Concrete data for evaluating the embedding -/

/-- One source of 21 distinct accepted domains, in sorted order. -/
def lines21 : List String :=
  ["a", "b", "c", "d", "e", "f", "g", "h", "i", "j", "k",
   "l", "m", "n", "o", "p", "q", "r", "s", "t", "u"]

/-- Two overlapping small sources, with a hosts-format line and a duplicate. -/
def mixedSources : List (List String) :=
  [["a.com", "0.0.0.0 b.com"], ["b.com"]]

/-- A hosts-format line carrying a mixed-case domain. -/
def caseLines : List (List String) :=
  [["0.0.0.0 Ads.Example.COM"]]

/-- A transport stub answering 204 No Content to everything. -/
def okResp : String → HttpResult := fun _ => .ok 204

/-- A transport stub failing the submission for `b.com` with a 500 and
answering 200 to every other domain. -/
def failResp : String → HttpResult :=
  fun d => if d = "b.com" then .ok 500 else .ok 200

/-- A world whose sources hold only comments and blanks. -/
def worldEmptySources : World :=
  ⟨[["# comment only", "   "]], some ∅, okResp, okResp⟩

/-- A world whose current-denylist fetch raises a request exception. -/
def worldReadFailure : World :=
  ⟨[["a.com"]], none, okResp, okResp⟩

/-- A world already in sync: desired and current are both `a.com`. -/
def worldNoop : World :=
  ⟨[["a.com"]], some {"a.com"}, okResp, okResp⟩

/-- A world with three domains to add of which the middle one will fail. -/
def worldPartialFailure : World :=
  ⟨[["a.com", "b.com", "c.com"]], some ∅, failResp, okResp⟩

/-! ## Helper lemmas -/

/-- Transfer of strict string ordering from the underlying character lists,
where comparison is kernel-computable. -/
theorem sorted_lt_of_data {L : List String}
    (h : (L.map String.toList).Pairwise (· < ·)) : L.Sorted (· < ·) :=
  (List.pairwise_map.mp h).imp (fun hab => String.lt_iff_toList_lt.mpr hab)

/-- A strictly sorted list whose elements are exactly those of `s` is the
sorted enumeration of `s`. -/
theorem sort_eq_of_sorted_lt {s : Finset String} {L : List String}
    (hL : L.Sorted (· < ·)) (ht : L.toFinset = s) : s.sort (· ≤ ·) = L :=
  List.eq_of_perm_of_sorted
    (List.perm_of_nodup_nodup_toFinset_eq (s.sort_nodup _) hL.nodup
      (by rw [Finset.sort_toFinset, ht]))
    (s.sort_sorted _) hL.le_of_lt

theorem mem_parseSourceInto (lines : List String) (acc : Finset String)
    (d : String) :
    d ∈ parseSourceInto acc lines ↔
      d ∈ acc ∨ ∃ l ∈ lines, parseLine l = some d := by
  induction lines generalizing acc with
  | nil => simp [parseSourceInto]
  | cons l ls ih =>
      have hstep : parseSourceInto acc (l :: ls) =
          parseSourceInto
            (match parseLine l with
              | some d => insert d acc
              | none => acc) ls := rfl
      rw [hstep, ih]
      cases hpl : parseLine l with
      | none => simp [hpl]
      | some e =>
          simp only [hpl, Finset.mem_insert, List.mem_cons]
          constructor
          · rintro ((rfl | hacc) | ⟨l2, hl2, hd⟩)
            · exact Or.inr ⟨l, Or.inl rfl, hpl⟩
            · exact Or.inl hacc
            · exact Or.inr ⟨l2, Or.inr hl2, hd⟩
          · rintro (hacc | ⟨l2, rfl | hl2, hd⟩)
            · exact Or.inl (Or.inr hacc)
            · rw [hpl] at hd
              exact Or.inl (Or.inl (Option.some_inj.mp hd).symm)
            · exact Or.inr ⟨l2, hl2, hd⟩

/-- A domain is in the desired union exactly when some line of some
successfully fetched source parses to it. -/
theorem mem_desiredUnion (sources : List (List String)) (d : String) :
    d ∈ desiredUnion sources ↔
      ∃ ls ∈ sources, ∃ l ∈ ls, parseLine l = some d := by
  have general :
      ∀ (srcs : List (List String)) (acc : Finset String),
        d ∈ srcs.foldl parseSourceInto acc ↔
          d ∈ acc ∨ ∃ ls ∈ srcs, ∃ l ∈ ls, parseLine l = some d := by
    intro srcs
    induction srcs with
    | nil => simp
    | cons ls rest ih =>
        intro acc
        rw [List.foldl_cons, ih, mem_parseSourceInto]
        simp only [List.mem_cons]
        constructor
        · rintro ((hacc | ⟨l, hl, hd⟩) | ⟨ls2, hls2, hex⟩)
          · exact Or.inl hacc
          · exact Or.inr ⟨ls, Or.inl rfl, l, hl, hd⟩
          · exact Or.inr ⟨ls2, Or.inr hls2, hex⟩
        · rintro (hacc | ⟨ls2, rfl | hls2, hex⟩)
          · exact Or.inl (Or.inl hacc)
          · exact Or.inl (Or.inr hex)
          · exact Or.inr ⟨ls2, hls2, hex⟩
  rw [desiredUnion, general]
  simp

theorem parseLine_eq_some (line d : String) :
    parseLine line = some d ↔
      stripCore line ≠ "" ∧ (pySplit (stripCore line)).getLast? = some d ∧
        d ≠ "0.0.0.0" ∧ d ≠ "127.0.0.1" := by
  rw [parseLine]
  by_cases hc : stripCore line = ""
  · simp [hc]
  · rw [if_neg hc]
    cases hl : (pySplit (stripCore line)).getLast? with
    | none => simp [hc]
    | some e =>
        dsimp only
        by_cases he : e = "0.0.0.0" ∨ e = "127.0.0.1"
        · rw [if_pos he]
          simp only [hc, ne_eq, not_false_eq_true, true_and]
          constructor
          · intro h; exact absurd h (by simp)
          · rintro ⟨he2, h1, h2⟩
            rcases he with rfl | rfl
            · exact absurd (Option.some_inj.mp he2).symm h1
            · exact absurd (Option.some_inj.mp he2).symm h2
        · rw [if_neg he]
          push_neg at he
          simp only [hc, ne_eq, not_false_eq_true, true_and, Option.some_inj]
          constructor
          · rintro rfl; exact ⟨rfl, he.1, he.2⟩
          · rintro ⟨rfl, _, _⟩; rfl

theorem splitWS_no_space (l : List Char) :
    ∀ t ∈ splitWS l, ∀ c ∈ t, pyIsSpace c = false := by
  induction l with
  | nil =>
      intro t ht c hc
      simp only [splitWS, List.mem_singleton] at ht
      subst ht
      simp at hc
  | cons a l ih =>
      intro t ht c hc
      simp only [splitWS] at ht
      by_cases ha : pyIsSpace a
      · rw [if_pos ha] at ht
        rcases List.mem_cons.mp ht with rfl | ht
        · simp at hc
        · exact ih t ht c hc
      · rw [if_neg ha] at ht
        cases hr : splitWS l with
        | nil =>
            rw [hr] at ht
            simp only [List.mem_singleton] at ht
            subst ht
            rcases List.mem_singleton.mp hc with rfl
            exact Bool.eq_false_iff.mpr ha
        | cons t0 ts =>
            rw [hr] at ht
            rcases List.mem_cons.mp ht with rfl | ht
            · rcases List.mem_cons.mp hc with rfl | hc0
              · exact Bool.eq_false_iff.mpr ha
              · exact ih t0 (hr ▸ List.mem_cons_self t0 ts) c hc0
            · exact ih t (hr ▸ List.mem_cons_of_mem t0 ht) c hc

/-- Every token `pySplit` produces is a non-empty whitespace-free verbatim
fragment of the input. -/
theorem mem_pySplit {s d : String} (h : d ∈ pySplit s) :
    d ≠ "" ∧ ∀ c ∈ d.data, pyIsSpace c = false := by
  rcases List.mem_map.mp h with ⟨t, ht, rfl⟩
  rcases List.mem_filter.mp ht with ⟨htWS, hne⟩
  refine ⟨?_, fun c hc => splitWS_no_space s.data t htWS c hc⟩
  intro habs
  have : t = [] := congrArg String.data habs
  rw [this] at hne
  simp at hne

theorem debugLimit_of_card_gt {s : Finset String}
    (h : DEBUG_DOMAIN_LIMIT < s.card) :
    debugLimit s = ((s.sort (· ≤ ·)).take DEBUG_DOMAIN_LIMIT).toFinset := by
  rw [debugLimit, if_pos h]

theorem debugLimit_eq_self {s : Finset String}
    (h : s.card ≤ DEBUG_DOMAIN_LIMIT) : debugLimit s = s := by
  rw [debugLimit, if_neg (by omega)]

theorem debugLimit_subset (s : Finset String) : debugLimit s ⊆ s := by
  by_cases h : DEBUG_DOMAIN_LIMIT < s.card
  · rw [debugLimit_of_card_gt h]
    intro x hx
    rw [List.mem_toFinset] at hx
    exact (Finset.mem_sort _).mp (List.take_subset _ _ hx)
  · rw [debugLimit, if_neg h]

theorem debugLimit_card {s : Finset String}
    (h : DEBUG_DOMAIN_LIMIT < s.card) :
    (debugLimit s).card = DEBUG_DOMAIN_LIMIT := by
  rw [debugLimit_of_card_gt h,
    List.toFinset_card_of_nodup ((s.sort_nodup _).sublist (List.take_sublist _ _)),
    List.length_take, Finset.length_sort]
  omega

/-- Everything the debug limit keeps is lexicographically below everything
of the set it drops. -/
theorem debugLimit_lt_dropped {s : Finset String}
    (h : DEBUG_DOMAIN_LIMIT < s.card) {x y : String}
    (hx : x ∈ debugLimit s) (hy : y ∈ s) (hy2 : y ∉ debugLimit s) :
    x < y := by
  have hsorted : (s.sort (· ≤ ·)).Sorted (· < ·) := s.sort_sorted_lt
  rw [debugLimit_of_card_gt h, List.mem_toFinset] at hx hy2
  have hyL : y ∈ s.sort (· ≤ ·) := (Finset.mem_sort _).mpr hy
  have hyDrop : y ∈ (s.sort (· ≤ ·)).drop DEBUG_DOMAIN_LIMIT := by
    rcases List.mem_append.mp
        ((List.take_append_drop DEBUG_DOMAIN_LIMIT (s.sort (· ≤ ·))) ▸ hyL)
      with h2 | h2
    · exact absurd h2 hy2
    · exact h2
  have hp : ((s.sort (· ≤ ·)).take DEBUG_DOMAIN_LIMIT ++
      (s.sort (· ≤ ·)).drop DEBUG_DOMAIN_LIMIT).Pairwise (· < ·) := by
    rw [List.take_append_drop]
    exact hsorted
  exact (List.pairwise_append.mp hp).2.2 x hx y hyDrop

theorem desiredBaseline_empty_of_union_empty {sources : List (List String)}
    (h : desiredUnion sources = ∅) : desiredBaseline sources = ∅ := by
  rw [desiredBaseline, h, debugLimit_eq_self (by simp)]

/-! ## Step lemmas for the run of `__main__` -/

theorem runSync_of_empty {w : World} (h : desiredBaseline w.sources = ∅) :
    runSync w = (.abortedEmpty, []) := by
  rw [runSync]
  simp [h]

theorem runSync_of_readFailure {w : World}
    (hne : desiredBaseline w.sources ≠ ∅) (hcur : w.current = none) :
    runSync w = (.abortedReadFailure, [.readReq]) := by
  rw [runSync]
  simp [hne, hcur]

theorem runSync_of_upToDate {w : World} {cur : Finset String}
    (hcur : w.current = some cur) (hne : desiredBaseline w.sources ≠ ∅)
    (hAdd : (diffSets (desiredBaseline w.sources) cur).1 = ∅)
    (hRemove : (diffSets (desiredBaseline w.sources) cur).2 = ∅) :
    runSync w = (.upToDate, [.readReq]) := by
  rw [runSync]
  simp [hne, hcur, hAdd, hRemove]

theorem runSync_of_completed {w : World} {cur : Finset String}
    (hcur : w.current = some cur) (hne : desiredBaseline w.sources ≠ ∅)
    (hdelta : ¬((diffSets (desiredBaseline w.sources) cur).1 = ∅ ∧
        (diffSets (desiredBaseline w.sources) cur).2 = ∅)) :
    runSync w =
      (.completed
        (addDomainsOneByOne w.addResp
          ((diffSets (desiredBaseline w.sources) cur).1.sort (· ≤ ·)))
        (removeDomainsOneByOne w.removeResp
          ((diffSets (desiredBaseline w.sources) cur).2.sort (· ≤ ·))),
       .readReq ::
        (((diffSets (desiredBaseline w.sources) cur).1.sort (· ≤ ·)).map
            Request.addReq ++
          ((diffSets (desiredBaseline w.sources) cur).2.sort (· ≤ ·)).map
            Request.removeReq)) := by
  rw [runSync]
  simp [hcur, hne]
  intro h1 h2
  exact hdelta ⟨h1, h2⟩

/-- The sorted enumeration of the 21-domain union is `lines21` itself. -/
theorem sort_union_lines21 :
    (desiredUnion [lines21]).sort (· ≤ ·) = lines21 :=
  sort_eq_of_sorted_lt (sorted_lt_of_data (by decide)) (by decide)

/-- The truncated baseline of the 21-domain source, made concrete. -/
theorem desiredBaseline_lines21 :
    desiredBaseline [lines21] = (lines21.take 20).toFinset := by
  have hcard : DEBUG_DOMAIN_LIMIT < (desiredUnion [lines21]).card := by decide
  rw [desiredBaseline, debugLimit, if_pos hcard, sort_union_lines21]
  rfl

/-! ## The claims -/

/-- C1: the Set Differencer of lines 130-131 is the pure pair of set
differences: `toAdd` holds exactly the desired domains not currently
present, `toRemove` exactly the current domains no longer desired, and on
the spec's example sets it yields `toAdd = {a.com}`, `toRemove = {c.com}`. -/
theorem diff_pure_correct (desired current : Finset String) (x : String) :
    (x ∈ (diffSets desired current).1 ↔ x ∈ desired ∧ x ∉ current) ∧
    (x ∈ (diffSets desired current).2 ↔ x ∈ current ∧ x ∉ desired) ∧
    diffSets {"a.com", "b.com"} {"b.com", "c.com"} = ({"a.com"}, {"c.com"}) :=
  ⟨Finset.mem_sdiff, Finset.mem_sdiff, by decide⟩

/-- C2 is false as stated: with the shipped `DEBUG_DOMAIN_LIMIT = 20`, a
single successfully fetched source of 21 accepted domains has `u` in the
parsed union but not in the baseline the reconciliation uses - an accepted
domain is dropped. -/
theorem baseline_drops_domain_cex :
    "u" ∈ desiredUnion [lines21] ∧ "u" ∉ desiredBaseline [lines21] :=
  ⟨by decide, by rw [desiredBaseline_lines21]; decide⟩

/-- C2 (amended): the parsed desired set is exactly the deduplicated union
of the accepted candidates of all successfully fetched sources, and it is
the reconciliation baseline itself whenever it holds at most
`DEBUG_DOMAIN_LIMIT` domains. -/
theorem desired_union_is_baseline (sources : List (List String))
    (h : (desiredUnion sources).card ≤ DEBUG_DOMAIN_LIMIT) :
    desiredBaseline sources = desiredUnion sources ∧
    ∀ d, d ∈ desiredUnion sources ↔
      ∃ ls ∈ sources, ∃ l ∈ ls, parseLine l = some d :=
  ⟨by rw [desiredBaseline, debugLimit_eq_self h],
   fun d => mem_desiredUnion sources d⟩

/-- Witness for C2 (amended) on two small concrete sources. -/
theorem desired_union_is_baseline_witness :
    desiredBaseline mixedSources = desiredUnion mixedSources ∧
    ∀ d, d ∈ desiredUnion mixedSources ↔
      ∃ ls ∈ mixedSources, ∃ l ∈ ls, parseLine l = some d :=
  desired_union_is_baseline mixedSources (by decide)

/-- C3: under the shipped configuration, when the parsed union exceeds 20
domains the reconciled baseline is a 20-element subset of the union below
every dropped member in lexicographic order (so it is exactly the 20
smallest), and every dropped parsed domain present in the current denylist
is placed in `toRemove`. -/
theorem baseline_truncates_to_smallest (sources : List (List String))
    (current : Finset String)
    (h : DEBUG_DOMAIN_LIMIT < (desiredUnion sources).card) :
    desiredBaseline sources ⊆ desiredUnion sources ∧
    (desiredBaseline sources).card = DEBUG_DOMAIN_LIMIT ∧
    (∀ x ∈ desiredBaseline sources, ∀ y ∈ desiredUnion sources,
        y ∉ desiredBaseline sources → x < y) ∧
    (∀ d ∈ desiredUnion sources, d ∉ desiredBaseline sources →
        d ∈ current → d ∈ (diffSets (desiredBaseline sources) current).2) := by
  refine ⟨debugLimit_subset _, debugLimit_card h, ?_, ?_⟩
  · intro x hx y hy hy2
    exact debugLimit_lt_dropped h hx hy hy2
  · intro d _ hd2 hcur
    exact Finset.mem_sdiff.mpr ⟨hcur, hd2⟩

/-- Witness for C3: the 21-domain source with `u` currently denylisted -
`u` is dropped from the baseline and lands in `toRemove`, and the baseline
has exactly 20 members. -/
theorem baseline_truncates_witness :
    "u" ∈ (diffSets (desiredBaseline [lines21]) {"u"}).2 ∧
    (desiredBaseline [lines21]).card = DEBUG_DOMAIN_LIMIT :=
  ⟨(baseline_truncates_to_smallest [lines21] {"u"} (by decide)).2.2.2 "u"
      (by decide) (by rw [desiredBaseline_lines21]; decide) (by decide),
   (baseline_truncates_to_smallest [lines21] {"u"} (by decide)).2.1⟩

/-- C4: a line parses to a domain exactly when, after stripping and
de-commenting, something remains whose last whitespace token is that
domain and the token is no null-route sentinel; on the spec's examples the
hosts line yields its domain, the comment nothing, the bare domain itself. -/
theorem parser_line_contract (line d : String) :
    (parseLine line = some d ↔
      stripCore line ≠ "" ∧ (pySplit (stripCore line)).getLast? = some d ∧
        d ≠ "0.0.0.0" ∧ d ≠ "127.0.0.1") ∧
    parseLine "0.0.0.0 ads.example.com" = some "ads.example.com" ∧
    parseLine "# comment" = none ∧
    parseLine "plain.example.com" = some "plain.example.com" :=
  ⟨parseLine_eq_some line d, by decide, by decide, by decide⟩

/-- C5: a run whose parsed desired set is empty terminates as
`abortedEmpty` with a non-zero exit code and issues no request at all -
neither the baseline read nor any mutation. -/
theorem empty_desired_aborts (w : World)
    (h : desiredUnion w.sources = ∅) :
    runSync w = (RunResult.abortedEmpty, []) ∧
    exitCode (runSync w).1 ≠ 0 := by
  have heq := runSync_of_empty (desiredBaseline_empty_of_union_empty h)
  exact ⟨heq, by rw [heq]; decide⟩

/-- Witness for C5: sources holding only a comment and a blank line. -/
theorem empty_desired_aborts_witness :
    runSync worldEmptySources = (RunResult.abortedEmpty, []) ∧
    exitCode (runSync worldEmptySources).1 ≠ 0 :=
  empty_desired_aborts worldEmptySources (by decide)

/-- C6: when the current-denylist fetch raises, the run exits non-zero and
never issues a mutation request (whatever the sources were, at most the
failed read itself is on the wire). -/
theorem read_failure_no_mutation (w : World) (h : w.current = none) :
    exitCode (runSync w).1 ≠ 0 ∧
    ∀ r ∈ (runSync w).2, r.isMutation = false := by
  by_cases hb : desiredBaseline w.sources = ∅
  · rw [runSync_of_empty hb]
    refine ⟨by decide, ?_⟩
    intro r hr
    simp at hr
  · rw [runSync_of_readFailure hb h]
    refine ⟨by decide, ?_⟩
    intro r hr
    rcases List.mem_singleton.mp hr with rfl
    rfl

/-- Witness for C6: one healthy source, read failure. -/
theorem read_failure_no_mutation_witness :
    exitCode (runSync worldReadFailure).1 ≠ 0 ∧
    ∀ r ∈ (runSync worldReadFailure).2, r.isMutation = false :=
  read_failure_no_mutation worldReadFailure rfl

/-- C7: when the run reaches the submission phase, every domain of `toAdd`
and of `toRemove` gets its own request and its own recorded outcome,
computed only from its own response - so one failed submission can stop no
other - and the run still exits 0. -/
theorem submission_failures_isolated (w : World) (cur : Finset String)
    (hcur : w.current = some cur)
    (hne : desiredBaseline w.sources ≠ ∅)
    (hwork : ¬((diffSets (desiredBaseline w.sources) cur).1 = ∅ ∧
        (diffSets (desiredBaseline w.sources) cur).2 = ∅)) :
    runSync w =
      (.completed
        (addDomainsOneByOne w.addResp
          ((diffSets (desiredBaseline w.sources) cur).1.sort (· ≤ ·)))
        (removeDomainsOneByOne w.removeResp
          ((diffSets (desiredBaseline w.sources) cur).2.sort (· ≤ ·))),
       .readReq ::
        (((diffSets (desiredBaseline w.sources) cur).1.sort (· ≤ ·)).map
            Request.addReq ++
          ((diffSets (desiredBaseline w.sources) cur).2.sort (· ≤ ·)).map
            Request.removeReq)) ∧
    exitCode (runSync w).1 = 0 ∧
    (∀ d ∈ (diffSets (desiredBaseline w.sources) cur).1,
        Request.addReq d ∈ (runSync w).2 ∧
        (d, addOutcome (w.addResp d)) ∈
          addDomainsOneByOne w.addResp
            ((diffSets (desiredBaseline w.sources) cur).1.sort (· ≤ ·))) ∧
    (∀ d ∈ (diffSets (desiredBaseline w.sources) cur).2,
        Request.removeReq d ∈ (runSync w).2 ∧
        (d, removeOutcome (w.removeResp d)) ∈
          removeDomainsOneByOne w.removeResp
            ((diffSets (desiredBaseline w.sources) cur).2.sort (· ≤ ·))) := by
  have heq := runSync_of_completed hcur hne hwork
  refine ⟨heq, by rw [heq]; rfl, ?_, ?_⟩
  · intro d hd
    have hsortMem : d ∈ (diffSets (desiredBaseline w.sources) cur).1.sort (· ≤ ·) :=
      (Finset.mem_sort _).mpr hd
    constructor
    · rw [heq]
      exact List.mem_cons_of_mem _
        (List.mem_append_left _ (List.mem_map_of_mem Request.addReq hsortMem))
    · exact List.mem_map_of_mem _ hsortMem
  · intro d hd
    have hsortMem : d ∈ (diffSets (desiredBaseline w.sources) cur).2.sort (· ≤ ·) :=
      (Finset.mem_sort _).mpr hd
    constructor
    · rw [heq]
      exact List.mem_cons_of_mem _
        (List.mem_append_right _ (List.mem_map_of_mem Request.removeReq hsortMem))
    · exact List.mem_map_of_mem _ hsortMem

/-- Witness for C7: three adds of which `b.com` answers 500 - all three
requests are still issued, the 500 is recorded as a failure, the others
as successes, and the exit code stays 0. -/
theorem submission_failures_isolated_witness :
    exitCode (runSync worldPartialFailure).1 = 0 ∧
    Request.addReq "a.com" ∈ (runSync worldPartialFailure).2 ∧
    Request.addReq "b.com" ∈ (runSync worldPartialFailure).2 ∧
    Request.addReq "c.com" ∈ (runSync worldPartialFailure).2 ∧
    ("b.com", Outcome.failed) ∈
      addDomainsOneByOne worldPartialFailure.addResp
        ((diffSets (desiredBaseline worldPartialFailure.sources) ∅).1.sort
          (· ≤ ·)) ∧
    addOutcome (worldPartialFailure.addResp "a.com") = Outcome.succeeded := by
  have h := submission_failures_isolated worldPartialFailure ∅ rfl
    (by decide) (by decide)
  refine ⟨h.2.1, (h.2.2.1 "a.com" (by decide)).1, (h.2.2.1 "b.com" (by decide)).1,
    (h.2.2.1 "c.com" (by decide)).1, (h.2.2.1 "b.com" (by decide)).2, by decide⟩

/-- C8 is false as stated: a 200 OK response - not the no-content status
204 - is still treated as a success by `raise_for_status`, and a 409 on
add is skipped as benign; neither is recorded as a failure. -/
theorem success_status_cex :
    addOutcome (HttpResult.ok 200) = Outcome.succeeded ∧
    Outcome.succeeded ≠ Outcome.failed ∧ (200 : Nat) ≠ 204 ∧
    addOutcome (HttpResult.ok 409) = Outcome.skipped := by
  decide

/-- C8 (amended): a submission fails exactly on a transport error or a
400-599 status that is not the benign skip (409 for add, 404 for remove);
every status outside 400-599 counts as success. -/
theorem mutation_outcome_contract (s : Nat) :
    (addOutcome (HttpResult.ok s) = Outcome.failed ↔
      400 ≤ s ∧ s < 600 ∧ s ≠ 409) ∧
    (removeOutcome (HttpResult.ok s) = Outcome.failed ↔
      400 ≤ s ∧ s < 600 ∧ s ≠ 404) ∧
    (addOutcome (HttpResult.ok s) = Outcome.skipped ↔ s = 409) ∧
    (removeOutcome (HttpResult.ok s) = Outcome.skipped ↔ s = 404) ∧
    addOutcome HttpResult.err = Outcome.failed ∧
    removeOutcome HttpResult.err = Outcome.failed := by
  refine ⟨?_, ?_, ?_, ?_, rfl, rfl⟩ <;>
    · simp only [addOutcome, removeOutcome, raisesForStatus,
        Bool.and_eq_true, decide_eq_true_eq]
      split_ifs <;> simp_all

/-- C9: a run whose delta is empty on both sides ends `upToDate` with exit
code 0 after only the read request, and the submission loops are no-ops on
an empty domain list. -/
theorem noop_run_up_to_date (w : World) (cur : Finset String)
    (hcur : w.current = some cur) (hne : desiredBaseline w.sources ≠ ∅)
    (hAdd : (diffSets (desiredBaseline w.sources) cur).1 = ∅)
    (hRemove : (diffSets (desiredBaseline w.sources) cur).2 = ∅) :
    runSync w = (RunResult.upToDate, [Request.readReq]) ∧
    exitCode (runSync w).1 = 0 ∧
    (∀ r ∈ (runSync w).2, r.isMutation = false) ∧
    (∀ resp : String → HttpResult,
        addDomainsOneByOne resp [] = [] ∧
        removeDomainsOneByOne resp [] = []) := by
  have heq := runSync_of_upToDate hcur hne hAdd hRemove
  refine ⟨heq, by rw [heq]; rfl, ?_, fun resp => ⟨rfl, rfl⟩⟩
  rw [heq]
  intro r hr
  rcases List.mem_singleton.mp hr with rfl
  rfl

/-- Witness for C9: desired and current both `a.com`. -/
theorem noop_run_up_to_date_witness :
    runSync worldNoop = (RunResult.upToDate, [Request.readReq]) ∧
    exitCode (runSync worldNoop).1 = 0 ∧
    (∀ r ∈ (runSync worldNoop).2, r.isMutation = false) ∧
    (∀ resp : String → HttpResult,
        addDomainsOneByOne resp [] = [] ∧
        removeDomainsOneByOne resp [] = []) :=
  noop_run_up_to_date worldNoop {"a.com"} rfl (by decide) (by decide) (by decide)

/-- C10: every domain the Source Parser puts into the desired union is
non-empty, holds no whitespace character, differs from both null-route
sentinels, and is a verbatim whitespace token of its source line - case
untouched. -/
theorem parsed_domain_invariant (sources : List (List String)) (d : String)
    (h : d ∈ desiredUnion sources) :
    d ≠ "" ∧ (∀ c ∈ d.data, pyIsSpace c = false) ∧
    d ≠ "0.0.0.0" ∧ d ≠ "127.0.0.1" ∧
    ∃ ls ∈ sources, ∃ l ∈ ls, d ∈ pySplit (stripCore l) := by
  rcases (mem_desiredUnion sources d).mp h with ⟨ls, hls, l, hl, hparse⟩
  rcases (parseLine_eq_some l d).mp hparse with ⟨_, hlast, h0, h127⟩
  have hmem : d ∈ pySplit (stripCore l) := List.mem_of_getLast?_eq_some hlast
  rcases mem_pySplit hmem with ⟨hne2, hws⟩
  exact ⟨hne2, hws, h0, h127, ls, hls, l, hl, hmem⟩

/-- Witness for C10: the mixed-case domain of `caseLines` satisfies the
invariant, exactly as written in the source text. -/
theorem parsed_domain_invariant_witness :
    "Ads.Example.COM" ≠ "" ∧
    (∀ c ∈ "Ads.Example.COM".data, pyIsSpace c = false) ∧
    "Ads.Example.COM" ≠ "0.0.0.0" ∧ "Ads.Example.COM" ≠ "127.0.0.1" ∧
    ∃ ls ∈ caseLines, ∃ l ∈ ls, "Ads.Example.COM" ∈ pySplit (stripCore l) :=
  parsed_domain_invariant caseLines "Ads.Example.COM" (by decide)

end NextDNS
